import Mathlib

/-!
Verification of the dimension-role slice/mosaic engine of the arrayshow
N-dimensional array viewer (src/arrayshow/viewer.py).

The engine state is a list of per-dimension records (role, index, size),
mirroring the Python list of dicts `self.dims`.  All operations below are
direct shallow embeddings of the corresponding Python methods of
`NDArrayViewer`; the GUI plumbing (Qt widgets, VisPy canvas, playback
timer) is outside the engine and is not modelled.
-/

namespace ArrayShow

/-- The five role strings used by the viewer.  The Python code stores them as
strings "view_x", "view_y", "view_grid", "scroll", "fixed". -/
inductive Role where
  | view_x
  | view_y
  | view_grid
  | scroll
  | fixed
deriving DecidableEq, Repr

/-- The Python code tests membership of the substring "view" in the role
string (`"view" in d["role"]`); on the five role strings this holds exactly
for view_x, view_y and view_grid. -/
def Role.isView : Role → Bool
  | .view_x => true
  | .view_y => true
  | .view_grid => true
  | .scroll => false
  | .fixed => false

/-- One entry of `self.dims`: a dict `{"role": .., "index": .., "size": ..}`. -/
structure Dim where
  role : Role
  index : Nat
  size : Nat
deriving DecidableEq, Repr

instance : Inhabited Dim := ⟨⟨Role.fixed, 0, 0⟩⟩

abbrev Dims := List Dim

/-- Number of dimensions currently holding role `r`. -/
def countRole (l : Dims) (r : Role) : Nat :=
  l.countP (fun d => d.role == r)

/-- Index of the first dimension satisfying `p`
(Python `next((i for i, d in enumerate(dims) if p(d)), None)`). -/
def firstIdx (p : Dim → Bool) : Dims → Option Nat
  | [] => none
  | d :: rest => if p d then some 0 else (firstIdx p rest).map (· + 1)

/-- Role of the dimension at position `j` (default entry out of range). -/
def roleAt (l : Dims) (j : Nat) : Role :=
  (l.getD j default).role

/-- Set the role of the dimension at position `i`
(Python `self.dims[i]["role"] = r`). -/
def modifyRole : Dims → Nat → Role → Dims
  | [], _, _ => []
  | d :: rest, 0, r => { d with role := r } :: rest
  | d :: rest, i + 1, r => d :: modifyRole rest i r

/-- Engine-level error kinds (the spec's names for the ValueError cases the
viewer raises and catches). -/
inductive EngineError where
  | InvalidShapeError
  | DuplicateRoleError
  | IndexOutOfRangeError
  | InvalidAxisSetError
deriving DecidableEq, Repr

/-- Role given to dimension `i` by `_assign_initial_roles`:
dim 0 view_x, dim 1 view_y, dim 2 scroll when ndim > 2, rest fixed. -/
def initialRole (i ndim : Nat) : Role :=
  if i = 0 then .view_x
  else if i = 1 then .view_y
  else if i = 2 ∧ ndim > 2 then .scroll
  else .fixed

def assign_initial_roles_aux (ndim : Nat) : Nat → List Nat → Dims
  | _, [] => []
  | i, n :: rest =>
    ⟨initialRole i ndim, n / 2, n⟩ :: assign_initial_roles_aux ndim (i + 1) rest

/-- `NDArrayViewer._assign_initial_roles`: one dict per axis, role from
`initialRole`, index `size // 2`. -/
def assign_initial_roles (shape : List Nat) : Dims :=
  assign_initial_roles_aux shape.length 0 shape

/-- Engine construction (`NDArrayViewer.__init__`): data with fewer than 2
dimensions is rejected before `_assign_initial_roles` runs. -/
def newEngine (shape : List Nat) : Except EngineError Dims :=
  if shape.length < 2 then .error .InvalidShapeError
  else .ok (assign_initial_roles shape)

theorem length_assign_initial_roles_aux (ndim : Nat) :
    ∀ (shape : List Nat) (i : Nat),
      (assign_initial_roles_aux ndim i shape).length = shape.length := by
  intro shape
  induction shape with
  | nil => intro i; rfl
  | cons n rest ih =>
      intro i
      simp [assign_initial_roles_aux, ih]

theorem getD_assign_initial_roles_aux (ndim : Nat) :
    ∀ (shape : List Nat) (k i : Nat), i < shape.length →
      (assign_initial_roles_aux ndim k shape).getD i default =
        ⟨initialRole (k + i) ndim, shape.getD i 0 / 2, shape.getD i 0⟩ := by
  intro shape
  induction shape with
  | nil => intro k i h; simp at h
  | cons n rest ih =>
      intro k i h
      cases i with
      | zero => simp [assign_initial_roles_aux, List.getD]
      | succ j =>
          have hj : j < rest.length := by simpa using h
          have := ih (k + 1) j hj
          simpa [assign_initial_roles_aux, List.getD, Nat.add_assoc,
            Nat.add_comm 1 j] using this

/-! ### The active array and numpy-style basic indexing

An N-dimensional array is modelled as its shape together with a total
value function on multi-indices (out-of-range indices return arbitrary
values, matching the fact that the Python code never reads them). -/

structure NDArr (α : Type) where
  shape : List Nat
  data : List Nat → α

/-- One entry of the Python slicer list: `slice(None)` or an integer. -/
inductive SliceItem where
  | all
  | idx (n : Nat)
deriving DecidableEq, Repr

/-- Shape of `a[tuple(slicer)]` under numpy basic indexing: axes indexed by
an integer are dropped, axes indexed by `slice(None)` are kept. -/
def sliceShape : List Nat → List SliceItem → List Nat
  | s, [] => s
  | [], _ :: _ => []
  | n :: s, .all :: sl => n :: sliceShape s sl
  | _ :: s, .idx _ :: sl => sliceShape s sl

/-- Map a multi-index of the sliced array back to a multi-index of the
source array: kept axes consume coordinates in order, dropped axes insert
their fixed integer. -/
def expandIndex : List SliceItem → List Nat → List Nat
  | [], rest => rest
  | .all :: sl, i :: is => i :: expandIndex sl is
  | .all :: _, [] => []
  | .idx n :: sl, is => n :: expandIndex sl is

/-- `a[tuple(slicer)]` for a slicer of `slice(None)` and integer entries. -/
def applySlice (a : NDArr α) (sl : List SliceItem) : NDArr α :=
  ⟨sliceShape a.shape sl, fun p => a.data (expandIndex sl p)⟩

/-- numpy `.T`: reverse the axis order. -/
def transposeT (a : NDArr α) : NDArr α :=
  ⟨a.shape.reverse, fun p => a.data p.reverse⟩

/-- The slicer built by `_get_single_slice` / `_build_grid_image`:
`slice(None)` for view-role dimensions, the fixed index otherwise. -/
def buildSlicer (dims : Dims) : List SliceItem :=
  dims.map (fun d => if d.role.isView then SliceItem.all else .idx d.index)

/-- `NDArrayViewer._get_single_slice`.  The Python `next(...)` over
`enumerate` has no default and would raise when no view_x / view_y dimension
exists; `(firstIdx ...).getD 0` models it on the states where it is used,
in which both roles are present. -/
def get_single_slice (a : NDArr α) (dims : Dims)
    (slicer_override : Option (List SliceItem)) : NDArr α :=
  let slicer := slicer_override.getD (buildSlicer dims)
  let x_dim_idx := (firstIdx (fun d => d.role == Role.view_x) dims).getD 0
  let y_dim_idx := (firstIdx (fun d => d.role == Role.view_y) dims).getD 0
  let slice_data := applySlice a slicer
  if y_dim_idx < x_dim_idx then transposeT slice_data else slice_data

/-- `NDArrayViewer._calculate_grid_layout`: search downward from
`int(sqrt(n))` for the first exact divisor. -/
def grid_rows_aux (n : Nat) : Nat → Nat
  | 0 => 1
  | r + 1 => if n % (r + 1) = 0 then r + 1 else grid_rows_aux n r

def calculate_grid_layout (num_images : Nat) : Nat × Nat :=
  if num_images = 0 then (0, 0)
  else
    let best_rows := grid_rows_aux num_images (Nat.sqrt num_images)
    (best_rows, num_images / best_rows)

/-- The slicer used for tile `i` of the mosaic: view dimensions get
`slice(None)`, the grid dimension is pinned to `i`, the rest contribute
their fixed index (`slicer[grid_dim_idx] = i`). -/
def gridSlicer (dims : Dims) (g i : Nat) : List SliceItem :=
  (buildSlicer dims).set g (.idx i)

/-- Writing one tile into the mosaic:
`grid_image[r*h:(r+1)*h, c*w:(c+1)*w] = current_slice`. -/
def writeTile (img src : NDArr α) (r c h w : Nat) : NDArr α :=
  ⟨img.shape, fun p =>
    match p with
    | [u, v] =>
        if r * h ≤ u ∧ u < (r + 1) * h ∧ c * w ≤ v ∧ v < (c + 1) * w then
          src.data [u - r * h, v - c * w]
        else img.data p
    | _ => img.data p⟩

/-- The fill loop of `_build_grid_image`: tiles `0, 1, …, k-1` written in
order into the zero-initialised mosaic. -/
def writeTiles (a : NDArr α) (dims : Dims) (g cols h w : Nat) :
    Nat → NDArr α → NDArr α
  | 0, img => img
  | k + 1, img =>
      writeTile (writeTiles a dims g cols h w k img)
        (get_single_slice a dims (some (gridSlicer dims g k)))
        (k / cols) (k % cols) h w

/-- `NDArrayViewer._build_grid_image`.  `np.zeros` is modelled by the
`default` element of the value type (0 for numeric types); its dtype — the
value type `α` — is that of the active array by construction. -/
def build_grid_image [Inhabited α] (a : NDArr α) (dims : Dims) (g : Nat) : NDArr α :=
  let num_images := (dims.getD g default).size
  let template := get_single_slice a dims (some (gridSlicer dims g 0))
  let slice_h := template.shape.getD 0 0
  let slice_w := template.shape.getD 1 0
  let layout := calculate_grid_layout num_images
  let grid_image : NDArr α :=
    ⟨[layout.1 * slice_h, layout.2 * slice_w], fun _ => default⟩
  writeTiles a dims g layout.2 slice_h slice_w num_images grid_image

/-- `NDArrayViewer._get_display_image`: plain slice when no view_grid
dimension exists, mosaic otherwise. -/
def get_display_image [Inhabited α] (a : NDArr α) (dims : Dims) : NDArr α :=
  match firstIdx (fun d => d.role == Role.view_grid) dims with
  | none => get_single_slice a dims none
  | some g => build_grid_image a dims g

/-! ### Role-reassignment operations -/

/-- The loop body of `_reassign_scroll_and_fixed`, with the running
`found_scroll` flag made explicit. -/
def reassign_scroll_and_fixed_aux (found : Bool) : Dims → Dims
  | [] => []
  | d :: rest =>
    if d.role.isView then d :: reassign_scroll_and_fixed_aux found rest
    else if found then
      { d with role := Role.fixed } :: reassign_scroll_and_fixed_aux true rest
    else
      { d with role := Role.scroll } :: reassign_scroll_and_fixed_aux true rest

/-- `NDArrayViewer._reassign_scroll_and_fixed`. -/
def reassign_scroll_and_fixed (dims : Dims) : Dims :=
  reassign_scroll_and_fixed_aux false dims

/-- The role-assignment loop of `_reassign_all_roles`, with the running
position made explicit. -/
def assign_xy (x y : Nat) : Nat → Dims → Dims
  | _, [] => []
  | i, d :: rest =>
    (if i = x then { d with role := Role.view_x }
     else if i = y then { d with role := Role.view_y }
     else { d with role := Role.fixed }) :: assign_xy x y (i + 1) rest

/-- `NDArrayViewer._reassign_all_roles` (the state mutation; the GUI
refresh calls are not modelled). -/
def reassign_all_roles (dims : Dims) (x y : Nat) : Dims :=
  reassign_scroll_and_fixed (assign_xy x y 0 dims)

/-- The validated `set_view_axes` entry point
(`NDArrayViewer._prompt_for_view_dims` with the two indices already
parsed): range is checked first, then distinctness; on error the dialog is
cancelled and the role state is untouched. -/
def set_view_axes (dims : Dims) (x y : Nat) : Dims × Option EngineError :=
  if ¬(x < dims.length ∧ y < dims.length) then
    (dims, some .IndexOutOfRangeError)
  else if x = y then (dims, some .DuplicateRoleError)
  else (reassign_all_roles dims x y, none)

/-- `NDArrayViewer._set_view_dimension_from_button` (axis 0 = the [X]
button, axis 1 = the [Y] button).  The Python `next(...)` has no default
and requires a view_x and a view_y dimension to exist, which the invariants
guarantee; `getD 0` models it on those states. -/
def set_view_dimension_from_button (dims : Dims) (new_dim_idx axis : Nat) : Dims :=
  let current_x_idx := (firstIdx (fun d => d.role == Role.view_x) dims).getD 0
  let current_y_idx := (firstIdx (fun d => d.role == Role.view_y) dims).getD 0
  if (axis = 0 ∧ new_dim_idx = current_y_idx) ∨
      (axis = 1 ∧ new_dim_idx = current_x_idx) then
    reassign_all_roles dims current_y_idx current_x_idx
  else if axis = 0 then
    reassign_all_roles dims new_dim_idx current_y_idx
  else
    reassign_all_roles dims current_x_idx new_dim_idx

/-- Loop body of the grid-clearing pass of `_toggle_grid_dimension`
(`if d["role"] == "view_grid": d["role"] = "fixed"`). -/
def clearGridEntry (e : Dim) : Dim :=
  if e.role = Role.view_grid then { e with role := Role.fixed } else e

/-- `NDArrayViewer._toggle_grid_dimension`.  Out-of-range indices (which
would raise in Python) are modelled as a no-op; the GUI only passes valid
dimension numbers. -/
def toggle_grid_dimension (dims : Dims) (dim_idx : Nat) : Dims :=
  match dims.get? dim_idx with
  | none => dims
  | some d =>
    if d.role = Role.view_grid then
      reassign_scroll_and_fixed (modifyRole dims dim_idx Role.scroll)
    else if d.role.isView then dims
    else
      reassign_scroll_and_fixed
        (modifyRole (dims.map clearGridEntry) dim_idx Role.view_grid)

/-- The cached `self.scroll_dim_idx` (`_update_scroll_dim_index` keeps it
equal to the first index whose role is scroll, -1 — here `none` — when no
scroll dimension exists). -/
def scrollDimIdx (dims : Dims) : Option Nat :=
  firstIdx (fun d => d.role == Role.scroll) dims

/-- `NDArrayViewer._set_scroll_dimension`.  Out-of-range indices (which
would raise in Python) are modelled as a no-op. -/
def set_scroll_dimension (dims : Dims) (new_scroll_idx : Nat) : Dims :=
  match dims.get? new_scroll_idx with
  | none => dims
  | some d =>
    if d.role.isView then dims
    else
      match scrollDimIdx dims with
      | some old =>
        if old = new_scroll_idx then dims
        else modifyRole (modifyRole dims old Role.fixed) new_scroll_idx Role.scroll
      | none => modifyRole dims new_scroll_idx Role.scroll

/-- Playback direction for `_change_scroll_dimension_by_cycle`. -/
inductive Direction where
  | next
  | prev
deriving DecidableEq, Repr

/-- The list comprehension `[i for i, d in enumerate(dims) if "view" not in
d["role"]]`, with the running position made explicit. -/
def nonViewIndicesFrom : Nat → Dims → List Nat
  | _, [] => []
  | i, d :: rest =>
    if d.role.isView then nonViewIndicesFrom (i + 1) rest
    else i :: nonViewIndicesFrom (i + 1) rest

/-- `NDArrayViewer._change_scroll_dimension_by_cycle`.  Python's
`list.index` raising ValueError (scroll index not among the cyclable
dimensions, e.g. -1) is the `none` branch, which falls back to the first
cyclable dimension; `(current - 1) % len` on negative values is Python
modulo, hence the `+ len - 1`. -/
def change_scroll_dimension_by_cycle (dims : Dims) (direction : Direction) : Dims :=
  let cyclable_indices := nonViewIndicesFrom 0 dims
  if cyclable_indices.length < 2 then dims
  else
    let target :=
      match scrollDimIdx dims with
      | some s =>
        match cyclable_indices.indexOf? s with
        | some current_pos =>
            let new_pos :=
              match direction with
              | .next => (current_pos + 1) % cyclable_indices.length
              | .prev =>
                  (current_pos + cyclable_indices.length - 1) %
                    cyclable_indices.length
            cyclable_indices.getD new_pos 0
        | none => cyclable_indices.getD 0 0
      | none => cyclable_indices.getD 0 0
    set_scroll_dimension dims target

/-! ### Frequency-domain transform (`_compute_fft`)

`np.fft.fftn(data, axes)` is the sequential 1-D discrete Fourier transform
along each listed axis, and `np.fft.fftshift(x, axes)` rolls each listed
axis by `n // 2`.  Floating point is idealised over ℝ/ℂ. -/

/-- One 1-D DFT along `axis`:
`X[k] = Σ_t x[t] * exp(-2πi k t / n)` at every position of the other axes. -/
noncomputable def dft1 (a : NDArr ℂ) (axis : Nat) : NDArr ℂ :=
  ⟨a.shape, fun p =>
    let n := a.shape.getD axis 1
    (Finset.range n).sum (fun t =>
      a.data (p.set axis t) *
        Complex.exp (-2 * Real.pi * Complex.I *
          ((p.getD axis 0 : Nat) : ℂ) * ((t : Nat) : ℂ) / ((n : Nat) : ℂ)))⟩

/-- `np.fft.fftn(a, axes)`: 1-D DFTs applied along the axes in order. -/
noncomputable def fftn (a : NDArr ℂ) (axes : List Nat) : NDArr ℂ :=
  axes.foldl dft1 a

/-- One axis of `np.fft.fftshift`: a roll by `n // 2`, so
`out[k] = in[(k - n//2) mod n]`, written with Nat arithmetic as
`(k + n - n//2) % n`. -/
def fftshift1 (a : NDArr ℂ) (axis : Nat) : NDArr ℂ :=
  ⟨a.shape, fun p =>
    let n := a.shape.getD axis 1
    a.data (p.set axis ((p.getD axis 0 + n - n / 2) % n))⟩

/-- `np.fft.fftshift(a, axes)`. -/
def fftshiftn (a : NDArr ℂ) (axes : List Nat) : NDArr ℂ :=
  axes.foldl fftshift1 a

/-- `NDArrayViewer._compute_fft`:
`np.log1p(np.abs(fftshift(fftn(data, axes), axes)))`
(the final `astype(np.float32)` is the identity in the real-number
idealisation). -/
noncomputable def compute_fft (a : NDArr ℂ) (axes : List Nat) : NDArr ℝ :=
  ⟨(fftshiftn (fftn a axes) axes).shape, fun p =>
    Real.log (1 + Complex.abs ((fftshiftn (fftn a axes) axes).data p))⟩

theorem shape_fftn (axes : List Nat) :
    ∀ a : NDArr ℂ, (fftn a axes).shape = a.shape := by
  induction axes with
  | nil => intro a; rfl
  | cons ax rest ih =>
      intro a
      have : fftn a (ax :: rest) = fftn (dft1 a ax) rest := rfl
      rw [this, ih]
      rfl

theorem shape_fftshiftn (axes : List Nat) :
    ∀ a : NDArr ℂ, (fftshiftn a axes).shape = a.shape := by
  induction axes with
  | nil => intro a; rfl
  | cons ax rest ih =>
      intro a
      have : fftshiftn a (ax :: rest) = fftshiftn (fftshift1 a ax) rest := rfl
      rw [this, ih]
      rfl

theorem shape_compute_fft (a : NDArr ℂ) (axes : List Nat) :
    (compute_fft a axes).shape = a.shape := by
  show (fftshiftn (fftn a axes) axes).shape = a.shape
  rw [shape_fftshiftn, shape_fftn]

/-! ### Basic lemmas about the list-level helpers -/

theorem countRole_nil (r : Role) : countRole [] r = 0 := rfl

theorem countRole_cons (d : Dim) (l : Dims) (r : Role) :
    countRole (d :: l) r = countRole l r + (if d.role = r then 1 else 0) := by
  simp [countRole, List.countP_cons]

theorem firstIdx_spec (p : Dim → Bool) :
    ∀ (l : Dims) (j : Nat), firstIdx p l = some j →
      j < l.length ∧ p (l.getD j default) = true := by
  intro l
  induction l with
  | nil => intro j h; simp [firstIdx] at h
  | cons d rest ih =>
      intro j h
      by_cases hd : p d
      · simp [firstIdx, hd] at h
        subst h
        simpa [List.getD] using hd
      · simp [firstIdx, hd] at h
        obtain ⟨j', hj', rfl⟩ := h
        obtain ⟨h1, h2⟩ := ih j' hj'
        exact ⟨by simpa using h1, by simpa [List.getD] using h2⟩

theorem firstIdx_eq_none (p : Dim → Bool) :
    ∀ l : Dims, firstIdx p l = none ↔ l.countP p = 0 := by
  intro l
  induction l with
  | nil => simp [firstIdx]
  | cons d rest ih =>
      by_cases hd : p d
      · simp [firstIdx, hd, List.countP_cons]
      · simp [firstIdx, hd, List.countP_cons, ih]

theorem length_modifyRole : ∀ (l : Dims) (i : Nat) (r : Role),
    (modifyRole l i r).length = l.length := by
  intro l
  induction l with
  | nil => intro i r; rfl
  | cons d rest ih =>
      intro i r
      cases i with
      | zero => rfl
      | succ j => simp [modifyRole, ih]

theorem getD_modifyRole_self : ∀ (l : Dims) (i : Nat) (r : Role),
    i < l.length →
      (modifyRole l i r).getD i default = { l.getD i default with role := r } := by
  intro l
  induction l with
  | nil => intro i r h; simp at h
  | cons d rest ih =>
      intro i r h
      cases i with
      | zero => simp [modifyRole, List.getD]
      | succ j =>
          have hj : j < rest.length := by simpa using h
          simpa [modifyRole, List.getD] using ih j r hj

theorem getD_modifyRole_ne : ∀ (l : Dims) (i j : Nat) (r : Role),
    j ≠ i → (modifyRole l i r).getD j default = l.getD j default := by
  intro l
  induction l with
  | nil => intro i j r _; cases i <;> rfl
  | cons d rest ih =>
      intro i j r hne
      cases i with
      | zero =>
          cases j with
          | zero => exact absurd rfl hne
          | succ j' => simp [modifyRole, List.getD]
      | succ i' =>
          cases j with
          | zero => simp [modifyRole, List.getD]
          | succ j' =>
              have : j' ≠ i' := fun h => hne (by simp [h])
              simpa [modifyRole, List.getD] using ih i' j' r this

theorem countRole_modifyRole : ∀ (l : Dims) (i : Nat) (r s : Role),
    i < l.length →
      countRole (modifyRole l i r) s +
          (if (l.getD i default).role = s then 1 else 0) =
        countRole l s + (if r = s then 1 else 0) := by
  intro l
  induction l with
  | nil => intro i r s h; simp at h
  | cons d rest ih =>
      intro i r s h
      cases i with
      | zero =>
          simp only [modifyRole, countRole_cons, List.getD_cons_zero]
          omega
      | succ j =>
          have hj : j < rest.length := by simpa using h
          have := ih j r s hj
          simp only [modifyRole, countRole_cons, List.getD_cons_succ]
          omega

theorem idxSize_modifyRole : ∀ (l : Dims) (i : Nat) (r : Role),
    (modifyRole l i r).map (fun d => (d.index, d.size)) =
      l.map (fun d => (d.index, d.size)) := by
  intro l
  induction l with
  | nil => intro i r; rfl
  | cons d rest ih =>
      intro i r
      cases i with
      | zero => rfl
      | succ j => simp [modifyRole, ih]

theorem countRole_pos_of_getD (l : Dims) (j : Nat) (r : Role)
    (hj : j < l.length) (hr : (l.getD j default).role = r) :
    1 ≤ countRole l r := by
  induction l generalizing j with
  | nil => simp at hj
  | cons d rest ih =>
      cases j with
      | zero =>
          simp only [List.getD_cons_zero] at hr
          simp [countRole_cons, hr]
      | succ j' =>
          have hj' : j' < rest.length := by simpa using hj
          have := ih j' hj' (by simpa [List.getD] using hr)
          simp only [countRole_cons]
          omega

theorem get?_some_getD (l : Dims) (i : Nat) (d : Dim)
    (h : l.get? i = some d) : i < l.length ∧ l.getD i default = d := by
  induction l generalizing i with
  | nil => simp at h
  | cons e rest ih =>
      cases i with
      | zero =>
          simp only [List.get?] at h
          cases h
          simp
      | succ j =>
          obtain ⟨h1, h2⟩ := ih j (by simpa using h)
          exact ⟨by simpa using h1, by simpa [List.getD] using h2⟩

theorem idxSize_transfer (l l' : Dims)
    (hmap : l'.map (fun d => (d.index, d.size)) =
      l.map (fun d => (d.index, d.size)))
    (h : ∀ d ∈ l, d.index < d.size) : ∀ d ∈ l', d.index < d.size := by
  intro d hd
  have hmem : (d.index, d.size) ∈ l.map (fun d => (d.index, d.size)) := by
    rw [← hmap]
    exact List.mem_map_of_mem _ hd
  obtain ⟨e, he, heq⟩ := List.mem_map.mp hmem
  have h1 : e.index = d.index := congrArg Prod.fst heq
  have h2 : e.size = d.size := congrArg Prod.snd heq
  rw [← h1, ← h2]
  exact h e he

/-! ### Lemmas about the grid-clearing pass -/

theorem countRole_clearGrid_of_ne (l : Dims) (s : Role)
    (hg : s ≠ Role.view_grid) (hf : s ≠ Role.fixed) :
    countRole (l.map clearGridEntry) s = countRole l s := by
  induction l with
  | nil => rfl
  | cons d rest ih =>
      by_cases hd : d.role = Role.view_grid
      · have h1 : d.role ≠ s := by rw [hd]; exact fun h => hg h.symm
        simp [clearGridEntry, hd, countRole_cons, ih,
          fun h => hf (Eq.symm h), fun h => hg (Eq.symm h),
          Ne.symm hf, Ne.symm hg]
      · simp [clearGridEntry, hd, countRole_cons, ih]

theorem countRole_clearGrid_grid (l : Dims) :
    countRole (l.map clearGridEntry) Role.view_grid = 0 := by
  induction l with
  | nil => rfl
  | cons d rest ih =>
      by_cases hd : d.role = Role.view_grid
      · simp [clearGridEntry, hd, countRole_cons, ih]
      · simp [clearGridEntry, hd, countRole_cons, ih]

theorem length_clearGrid (l : Dims) :
    (l.map clearGridEntry).length = l.length := by
  simp

theorem getD_clearGrid (l : Dims) (j : Nat) (hj : j < l.length) :
    (l.map clearGridEntry).getD j default = clearGridEntry (l.getD j default) := by
  induction l generalizing j with
  | nil => simp at hj
  | cons d rest ih =>
      cases j with
      | zero => simp [List.getD]
      | succ j' =>
          have := ih j' (by simpa using hj)
          simpa [List.getD] using this

theorem idxSize_clearGrid (l : Dims) :
    (l.map clearGridEntry).map (fun d => (d.index, d.size)) =
      l.map (fun d => (d.index, d.size)) := by
  induction l with
  | nil => rfl
  | cons d rest ih =>
      by_cases hd : d.role = Role.view_grid
      · simp [clearGridEntry, hd, ih]
      · simp [clearGridEntry, hd, ih]

/-! ### Lemmas about `_reassign_scroll_and_fixed` -/

theorem length_rsf_aux (f : Bool) :
    ∀ l : Dims, (reassign_scroll_and_fixed_aux f l).length = l.length := by
  intro l
  induction l generalizing f with
  | nil => rfl
  | cons d rest ih =>
      by_cases hd : d.role.isView
      · simp [reassign_scroll_and_fixed_aux, hd, ih]
      · cases f <;> simp [reassign_scroll_and_fixed_aux, hd, ih]

theorem countRole_rsf_aux_view (f : Bool) (r : Role) (hr : r.isView = true) :
    ∀ l : Dims, countRole (reassign_scroll_and_fixed_aux f l) r = countRole l r := by
  intro l
  induction l generalizing f with
  | nil => rfl
  | cons d rest ih =>
      by_cases hd : d.role.isView
      · simp [reassign_scroll_and_fixed_aux, hd, countRole_cons, ih]
      · have hdr : d.role ≠ r := fun h => by rw [h] at hd; exact hd hr
        have hsr : Role.scroll ≠ r := fun h => by rw [← h] at hr; simp [Role.isView] at hr
        have hfr : Role.fixed ≠ r := fun h => by rw [← h] at hr; simp [Role.isView] at hr
        cases f <;>
          simp [reassign_scroll_and_fixed_aux, hd, countRole_cons, ih, hdr, hsr, hfr]

theorem countRole_rsf_aux_true_scroll :
    ∀ l : Dims, countRole (reassign_scroll_and_fixed_aux true l) Role.scroll = 0 := by
  intro l
  induction l with
  | nil => rfl
  | cons d rest ih =>
      by_cases hd : d.role.isView
      · have : d.role ≠ Role.scroll := fun h => by
          rw [h] at hd; simp [Role.isView] at hd
        simp [reassign_scroll_and_fixed_aux, hd, countRole_cons, ih, this]
      · simp [reassign_scroll_and_fixed_aux, hd, countRole_cons, ih]

theorem countRole_rsf_aux_false_scroll :
    ∀ l : Dims, countRole (reassign_scroll_and_fixed_aux false l) Role.scroll ≤ 1 := by
  intro l
  induction l with
  | nil => simp [reassign_scroll_and_fixed_aux, countRole_nil]
  | cons d rest ih =>
      by_cases hd : d.role.isView
      · have : d.role ≠ Role.scroll := fun h => by
          rw [h] at hd; simp [Role.isView] at hd
        simpa [reassign_scroll_and_fixed_aux, hd, countRole_cons, this] using ih
      · simp [reassign_scroll_and_fixed_aux, hd, countRole_cons,
          countRole_rsf_aux_true_scroll]

theorem idxSize_rsf_aux (f : Bool) :
    ∀ l : Dims,
      (reassign_scroll_and_fixed_aux f l).map (fun d => (d.index, d.size)) =
        l.map (fun d => (d.index, d.size)) := by
  intro l
  induction l generalizing f with
  | nil => rfl
  | cons d rest ih =>
      by_cases hd : d.role.isView
      · simp [reassign_scroll_and_fixed_aux, hd, ih]
      · cases f <;> simp [reassign_scroll_and_fixed_aux, hd, ih]

theorem getD_rsf_aux_view (f : Bool) :
    ∀ (l : Dims) (j : Nat), (l.getD j default).role.isView = true →
      (reassign_scroll_and_fixed_aux f l).getD j default = l.getD j default := by
  intro l
  induction l generalizing f with
  | nil => intro j h; rw [List.getD_nil] at h; exact absurd h (by decide)
  | cons d rest ih =>
      intro j h
      cases j with
      | zero =>
          simp only [List.getD_cons_zero] at h
          simp [reassign_scroll_and_fixed_aux, h, List.getD]
      | succ j' =>
          simp only [List.getD_cons_succ] at h
          by_cases hd : d.role.isView
          · simpa [reassign_scroll_and_fixed_aux, hd, List.getD] using ih f j' h
          · cases f <;>
              simpa [reassign_scroll_and_fixed_aux, hd, List.getD] using ih true j' h

theorem getD_rsf_aux_true_fixed :
    ∀ (l : Dims) (j : Nat), j < l.length →
      (l.getD j default).role.isView = false →
      ((reassign_scroll_and_fixed_aux true l).getD j default).role = Role.fixed := by
  intro l
  induction l with
  | nil => intro j h; simp at h
  | cons d rest ih =>
      intro j hj h
      cases j with
      | zero =>
          simp only [List.getD_cons_zero] at h
          simp [reassign_scroll_and_fixed_aux, h, List.getD]
      | succ j' =>
          simp only [List.getD_cons_succ] at h
          have hj' : j' < rest.length := by simpa using hj
          by_cases hd : d.role.isView
          · simpa [reassign_scroll_and_fixed_aux, hd, List.getD] using ih j' hj' h
          · simpa [reassign_scroll_and_fixed_aux, hd, List.getD] using ih j' hj' h

theorem getD_rsf_false_first_scroll :
    ∀ (l : Dims) (k : Nat),
      firstIdx (fun d => !d.role.isView) l = some k →
      ((reassign_scroll_and_fixed_aux false l).getD k default).role = Role.scroll := by
  intro l
  induction l with
  | nil => intro k h; simp [firstIdx] at h
  | cons d rest ih =>
      intro k h
      by_cases hd : d.role.isView
      · simp [firstIdx, hd] at h
        obtain ⟨k', hk', rfl⟩ := h
        simpa [reassign_scroll_and_fixed_aux, hd, List.getD] using ih k' hk'
      · simp [firstIdx, hd] at h
        subst h
        simp [reassign_scroll_and_fixed_aux, hd, List.getD]

theorem getD_rsf_false_after_first :
    ∀ (l : Dims) (k j : Nat),
      firstIdx (fun d => !d.role.isView) l = some k →
      k < j → j < l.length → (l.getD j default).role.isView = false →
      ((reassign_scroll_and_fixed_aux false l).getD j default).role = Role.fixed := by
  intro l
  induction l with
  | nil => intro k j h; simp [firstIdx] at h
  | cons d rest ih =>
      intro k j h hkj hj hrole
      by_cases hd : d.role.isView
      · simp [firstIdx, hd] at h
        obtain ⟨k', hk', rfl⟩ := h
        cases j with
        | zero => omega
        | succ j' =>
            simp only [List.getD_cons_succ] at hrole
            have hj' : j' < rest.length := by simpa using hj
            simpa [reassign_scroll_and_fixed_aux, hd, List.getD] using
              ih k' j' hk' (by omega) hj' hrole
      · simp [firstIdx, hd] at h
        subst h
        cases j with
        | zero => omega
        | succ j' =>
            simp only [List.getD_cons_succ] at hrole
            have hj' : j' < rest.length := by simpa using hj
            simpa [reassign_scroll_and_fixed_aux, hd, List.getD] using
              getD_rsf_aux_true_fixed rest j' hj' hrole

/-! ### Lemmas about `_reassign_all_roles` -/

theorem length_assign_xy (x y : Nat) :
    ∀ (l : Dims) (i : Nat), (assign_xy x y i l).length = l.length := by
  intro l
  induction l with
  | nil => intro i; rfl
  | cons d rest ih => intro i; simp [assign_xy, ih]

theorem getD_assign_xy (x y : Nat) :
    ∀ (l : Dims) (i j : Nat), j < l.length →
      (assign_xy x y i l).getD j default =
        { l.getD j default with
          role :=
            if i + j = x then Role.view_x
            else if i + j = y then Role.view_y
            else Role.fixed } := by
  intro l
  induction l with
  | nil => intro i j h; simp at h
  | cons d rest ih =>
      intro i j h
      cases j with
      | zero =>
          simp only [assign_xy, List.getD_cons_zero, Nat.add_zero]
          split_ifs <;> simp_all
      | succ j' =>
          have hj' : j' < rest.length := by simpa using h
          have := ih (i + 1) j' hj'
          have harith : i + 1 + j' = i + (j' + 1) := by omega
          simp only [assign_xy, List.getD_cons_succ]
          rw [this, harith]

theorem countRole_assign_xy_x (x y : Nat) :
    ∀ (l : Dims) (i : Nat),
      countRole (assign_xy x y i l) Role.view_x =
        if i ≤ x ∧ x < i + l.length then 1 else 0 := by
  intro l
  induction l with
  | nil =>
      intro i
      simp only [assign_xy, countRole_nil, List.length_nil]
      split_ifs <;> omega
  | cons d rest ih =>
      intro i
      simp only [assign_xy, countRole_cons, List.length_cons, ih (i + 1)]
      by_cases hix : i = x
      · simp only [hix, if_pos rfl]
        split_ifs <;> simp_all
      · rw [if_neg hix]
        by_cases hiy : i = y
        · rw [if_pos hiy]
          split_ifs <;> simp_all <;> omega
        · rw [if_neg hiy]
          split_ifs <;> simp_all <;> omega

theorem countRole_assign_xy_y (x y : Nat) (hxy : x ≠ y) :
    ∀ (l : Dims) (i : Nat),
      countRole (assign_xy x y i l) Role.view_y =
        if i ≤ y ∧ y < i + l.length then 1 else 0 := by
  intro l
  induction l with
  | nil =>
      intro i
      simp only [assign_xy, countRole_nil, List.length_nil]
      split_ifs <;> omega
  | cons d rest ih =>
      intro i
      simp only [assign_xy, countRole_cons, List.length_cons, ih (i + 1)]
      by_cases hix : i = x
      · simp only [hix, if_pos rfl]
        split_ifs <;> simp_all <;> omega
      · rw [if_neg hix]
        by_cases hiy : i = y
        · rw [if_pos hiy]
          split_ifs <;> simp_all
        · rw [if_neg hiy]
          split_ifs <;> simp_all <;> omega

theorem countRole_assign_xy_grid (x y : Nat) :
    ∀ (l : Dims) (i : Nat),
      countRole (assign_xy x y i l) Role.view_grid = 0 := by
  intro l
  induction l with
  | nil => intro i; rfl
  | cons d rest ih =>
      intro i
      simp only [assign_xy, countRole_cons, ih (i + 1)]
      split_ifs <;> simp_all

theorem countRole_assign_xy_scroll (x y : Nat) :
    ∀ (l : Dims) (i : Nat),
      countRole (assign_xy x y i l) Role.scroll = 0 := by
  intro l
  induction l with
  | nil => intro i; rfl
  | cons d rest ih =>
      intro i
      simp only [assign_xy, countRole_cons, ih (i + 1)]
      split_ifs <;> simp_all

theorem idxSize_assign_xy (x y : Nat) :
    ∀ (l : Dims) (i : Nat),
      (assign_xy x y i l).map (fun d => (d.index, d.size)) =
        l.map (fun d => (d.index, d.size)) := by
  intro l
  induction l with
  | nil => intro i; rfl
  | cons d rest ih =>
      intro i
      simp only [assign_xy, List.map_cons, ih (i + 1)]
      split_ifs <;> rfl

theorem length_reassign_all_roles (dims : Dims) (x y : Nat) :
    (reassign_all_roles dims x y).length = dims.length := by
  simp [reassign_all_roles, reassign_scroll_and_fixed, length_rsf_aux,
    length_assign_xy]

theorem countRole_reassign_all_roles_x (dims : Dims) (x y : Nat)
    (hx : x < dims.length) :
    countRole (reassign_all_roles dims x y) Role.view_x = 1 := by
  have h1 := countRole_rsf_aux_view false Role.view_x rfl (assign_xy x y 0 dims)
  have h2 := countRole_assign_xy_x x y dims 0
  simp only [reassign_all_roles, reassign_scroll_and_fixed, h1, h2]
  split_ifs with h
  · rfl
  · omega

theorem countRole_reassign_all_roles_y (dims : Dims) (x y : Nat)
    (hy : y < dims.length) (hxy : x ≠ y) :
    countRole (reassign_all_roles dims x y) Role.view_y = 1 := by
  have h1 := countRole_rsf_aux_view false Role.view_y rfl (assign_xy x y 0 dims)
  have h2 := countRole_assign_xy_y x y hxy dims 0
  simp only [reassign_all_roles, reassign_scroll_and_fixed, h1, h2]
  split_ifs with h
  · rfl
  · omega

theorem countRole_reassign_all_roles_grid (dims : Dims) (x y : Nat) :
    countRole (reassign_all_roles dims x y) Role.view_grid = 0 := by
  have h1 := countRole_rsf_aux_view false Role.view_grid rfl (assign_xy x y 0 dims)
  simp only [reassign_all_roles, reassign_scroll_and_fixed, h1,
    countRole_assign_xy_grid]

theorem countRole_reassign_all_roles_scroll (dims : Dims) (x y : Nat) :
    countRole (reassign_all_roles dims x y) Role.scroll ≤ 1 :=
  countRole_rsf_aux_false_scroll (assign_xy x y 0 dims)

theorem idxSize_reassign_all_roles (dims : Dims) (x y : Nat) :
    (reassign_all_roles dims x y).map (fun d => (d.index, d.size)) =
      dims.map (fun d => (d.index, d.size)) := by
  simp only [reassign_all_roles, reassign_scroll_and_fixed, idxSize_rsf_aux,
    idxSize_assign_xy]

theorem roleAt_reassign_all_roles_x (dims : Dims) (x y : Nat)
    (hx : x < dims.length) :
    roleAt (reassign_all_roles dims x y) x = Role.view_x := by
  have hpos := getD_assign_xy x y dims 0 x hx
  rw [Nat.zero_add, if_pos rfl] at hpos
  have hview : ((assign_xy x y 0 dims).getD x default).role.isView = true := by
    rw [hpos]; rfl
  have hkeep := getD_rsf_aux_view false (assign_xy x y 0 dims) x hview
  simp only [reassign_all_roles, reassign_scroll_and_fixed, roleAt]
  rw [hkeep, hpos]

theorem roleAt_reassign_all_roles_y (dims : Dims) (x y : Nat)
    (hy : y < dims.length) (hxy : x ≠ y) :
    roleAt (reassign_all_roles dims x y) y = Role.view_y := by
  have hpos := getD_assign_xy x y dims 0 y hy
  rw [Nat.zero_add, if_neg (Ne.symm hxy), if_pos rfl] at hpos
  have hview : ((assign_xy x y 0 dims).getD y default).role.isView = true := by
    rw [hpos]; rfl
  have hkeep := getD_rsf_aux_view false (assign_xy x y 0 dims) y hview
  simp only [reassign_all_roles, reassign_scroll_and_fixed, roleAt]
  rw [hkeep, hpos]

/-! ### The invariants of the dimension-role engine -/

/-- Invariants 1-3 of the spec: exactly one view_x, exactly one view_y
(roles are mutually exclusive per dimension, so the two holders are
automatically distinct dimensions), at most one view_grid, at most one
scroll. -/
def rolesInv (dims : Dims) : Prop :=
  countRole dims Role.view_x = 1 ∧ countRole dims Role.view_y = 1 ∧
    countRole dims Role.view_grid ≤ 1 ∧ countRole dims Role.scroll ≤ 1

/-- Invariant 4 of the spec: `0 ≤ index < size` for every dimension
(the lower bound is automatic for Nat). -/
def indicesInv (dims : Dims) : Prop := ∀ d ∈ dims, d.index < d.size

def EngineInv (dims : Dims) : Prop := rolesInv dims ∧ indicesInv dims

instance (dims : Dims) : Decidable (rolesInv dims) := by
  unfold rolesInv; infer_instance

instance (dims : Dims) : Decidable (indicesInv dims) := by
  unfold indicesInv; infer_instance

instance (dims : Dims) : Decidable (EngineInv dims) := by
  unfold EngineInv; infer_instance

theorem not_isView_ne {r : Role} (h : r.isView = false) :
    r ≠ Role.view_x ∧ r ≠ Role.view_y ∧ r ≠ Role.view_grid := by
  cases r <;> simp_all [Role.isView]

theorem inv_reassign_all_roles (dims : Dims) (x y : Nat)
    (hx : x < dims.length) (hy : y < dims.length) (hxy : x ≠ y)
    (h : EngineInv dims) : EngineInv (reassign_all_roles dims x y) := by
  refine ⟨⟨countRole_reassign_all_roles_x dims x y hx,
    countRole_reassign_all_roles_y dims x y hy hxy, ?_,
    countRole_reassign_all_roles_scroll dims x y⟩, ?_⟩
  · rw [countRole_reassign_all_roles_grid]; omega
  · exact idxSize_transfer dims _ (idxSize_reassign_all_roles dims x y) h.2

theorem inv_set_scroll_dimension (dims : Dims) (i : Nat)
    (h : EngineInv dims) : EngineInv (set_scroll_dimension dims i) := by
  obtain ⟨⟨hx, hy, hg, hs⟩, hidx⟩ := h
  unfold set_scroll_dimension
  split
  · exact ⟨⟨hx, hy, hg, hs⟩, hidx⟩
  · next d hget =>
    obtain ⟨hilen, hgetD⟩ := get?_some_getD dims i d hget
    split_ifs with hv
    · exact ⟨⟨hx, hy, hg, hs⟩, hidx⟩
    · rw [Bool.not_eq_true] at hv
      obtain ⟨hnx, hny, hng⟩ := not_isView_ne hv
      split
      · next old hsc =>
        obtain ⟨holdlen, holdrole⟩ := firstIdx_spec _ dims old hsc
        rw [beq_iff_eq] at holdrole
        split_ifs with hoi
        · exact ⟨⟨hx, hy, hg, hs⟩, hidx⟩
        · have hscount : 1 ≤ countRole dims Role.scroll :=
            countRole_pos_of_getD dims old Role.scroll holdlen holdrole
          have h1x := countRole_modifyRole dims old Role.fixed Role.view_x holdlen
          have h1y := countRole_modifyRole dims old Role.fixed Role.view_y holdlen
          have h1g := countRole_modifyRole dims old Role.fixed Role.view_grid holdlen
          have h1s := countRole_modifyRole dims old Role.fixed Role.scroll holdlen
          rw [holdrole, if_neg (by decide : Role.scroll ≠ Role.view_x),
            if_neg (by decide : Role.fixed ≠ Role.view_x)] at h1x
          rw [holdrole, if_neg (by decide : Role.scroll ≠ Role.view_y),
            if_neg (by decide : Role.fixed ≠ Role.view_y)] at h1y
          rw [holdrole, if_neg (by decide : Role.scroll ≠ Role.view_grid),
            if_neg (by decide : Role.fixed ≠ Role.view_grid)] at h1g
          rw [holdrole, if_pos rfl,
            if_neg (by decide : Role.fixed ≠ Role.scroll)] at h1s
          have hlen1 : i < (modifyRole dims old Role.fixed).length := by
            rw [length_modifyRole]; exact hilen
          have hgetD1 : (modifyRole dims old Role.fixed).getD i default = d := by
            rw [getD_modifyRole_ne dims old i Role.fixed
              (fun hcon => hoi hcon.symm)]
            exact hgetD
          have h2x := countRole_modifyRole (modifyRole dims old Role.fixed) i
            Role.scroll Role.view_x hlen1
          have h2y := countRole_modifyRole (modifyRole dims old Role.fixed) i
            Role.scroll Role.view_y hlen1
          have h2g := countRole_modifyRole (modifyRole dims old Role.fixed) i
            Role.scroll Role.view_grid hlen1
          have h2s := countRole_modifyRole (modifyRole dims old Role.fixed) i
            Role.scroll Role.scroll hlen1
          rw [hgetD1, if_neg hnx,
            if_neg (by decide : Role.scroll ≠ Role.view_x)] at h2x
          rw [hgetD1, if_neg hny,
            if_neg (by decide : Role.scroll ≠ Role.view_y)] at h2y
          rw [hgetD1, if_neg hng,
            if_neg (by decide : Role.scroll ≠ Role.view_grid)] at h2g
          rw [hgetD1, if_pos rfl] at h2s
          have hds : (if d.role = Role.scroll then 1 else 0) ≤ 1 := by
            split_ifs <;> omega
          refine ⟨⟨by omega, by omega, by omega, by omega⟩, ?_⟩
          refine idxSize_transfer _ _
            (idxSize_modifyRole (modifyRole dims old Role.fixed) i Role.scroll) ?_
          exact idxSize_transfer dims _ (idxSize_modifyRole dims old Role.fixed) hidx
      · next hsc =>
        have hzero : countRole dims Role.scroll = 0 :=
          (firstIdx_eq_none _ dims).mp hsc
        have hne_scroll : d.role ≠ Role.scroll := by
          intro hcon
          have := countRole_pos_of_getD dims i Role.scroll hilen
            (by rw [hgetD, hcon])
          omega
        have hcx := countRole_modifyRole dims i Role.scroll Role.view_x hilen
        have hcy := countRole_modifyRole dims i Role.scroll Role.view_y hilen
        have hcg := countRole_modifyRole dims i Role.scroll Role.view_grid hilen
        have hcs := countRole_modifyRole dims i Role.scroll Role.scroll hilen
        rw [hgetD, if_neg hnx,
          if_neg (by decide : Role.scroll ≠ Role.view_x)] at hcx
        rw [hgetD, if_neg hny,
          if_neg (by decide : Role.scroll ≠ Role.view_y)] at hcy
        rw [hgetD, if_neg hng,
          if_neg (by decide : Role.scroll ≠ Role.view_grid)] at hcg
        rw [hgetD, if_neg hne_scroll, if_pos rfl] at hcs
        refine ⟨⟨by omega, by omega, by omega, by omega⟩, ?_⟩
        exact idxSize_transfer dims _ (idxSize_modifyRole dims i Role.scroll) hidx

theorem inv_toggle_grid_dimension (dims : Dims) (i : Nat)
    (h : EngineInv dims) : EngineInv (toggle_grid_dimension dims i) := by
  obtain ⟨⟨hx, hy, hg, hs⟩, hidx⟩ := h
  unfold toggle_grid_dimension
  split
  · exact ⟨⟨hx, hy, hg, hs⟩, hidx⟩
  · next d hget =>
    obtain ⟨hilen, hgetD⟩ := get?_some_getD dims i d hget
    split_ifs with hdg hv
    · -- d was the view_grid dimension: it reverts to scroll, then re-partition
      have hgcount : 1 ≤ countRole dims Role.view_grid :=
        countRole_pos_of_getD dims i Role.view_grid hilen (by rw [hgetD, hdg])
      have h1x := countRole_modifyRole dims i Role.scroll Role.view_x hilen
      have h1y := countRole_modifyRole dims i Role.scroll Role.view_y hilen
      have h1g := countRole_modifyRole dims i Role.scroll Role.view_grid hilen
      rw [hgetD, hdg, if_neg (by decide : Role.view_grid ≠ Role.view_x),
        if_neg (by decide : Role.scroll ≠ Role.view_x)] at h1x
      rw [hgetD, hdg, if_neg (by decide : Role.view_grid ≠ Role.view_y),
        if_neg (by decide : Role.scroll ≠ Role.view_y)] at h1y
      rw [hgetD, hdg, if_pos rfl,
        if_neg (by decide : Role.scroll ≠ Role.view_grid)] at h1g
      refine ⟨⟨?_, ?_, ?_, ?_⟩, ?_⟩
      · rw [reassign_scroll_and_fixed,
          countRole_rsf_aux_view false Role.view_x rfl]
        omega
      · rw [reassign_scroll_and_fixed,
          countRole_rsf_aux_view false Role.view_y rfl]
        omega
      · rw [reassign_scroll_and_fixed,
          countRole_rsf_aux_view false Role.view_grid rfl]
        omega
      · exact countRole_rsf_aux_false_scroll _
      · refine idxSize_transfer _ _ (idxSize_rsf_aux false _) ?_
        exact idxSize_transfer dims _ (idxSize_modifyRole dims i Role.scroll) hidx
    · exact ⟨⟨hx, hy, hg, hs⟩, hidx⟩
    · -- d was scroll or fixed: clear any grid elsewhere, make d the grid
      rw [Bool.not_eq_true] at hv
      obtain ⟨hnx, hny, hng⟩ := not_isView_ne hv
      have hcx : countRole (dims.map clearGridEntry) Role.view_x = 1 := by
        rw [countRole_clearGrid_of_ne dims Role.view_x (by decide) (by decide)]
        exact hx
      have hcy : countRole (dims.map clearGridEntry) Role.view_y = 1 := by
        rw [countRole_clearGrid_of_ne dims Role.view_y (by decide) (by decide)]
        exact hy
      have hcg : countRole (dims.map clearGridEntry) Role.view_grid = 0 :=
        countRole_clearGrid_grid dims
      have hclen : i < (dims.map clearGridEntry).length := by
        rw [length_clearGrid]; exact hilen
      have hcgetD : (dims.map clearGridEntry).getD i default = d := by
        rw [getD_clearGrid dims i hilen, hgetD, clearGridEntry, if_neg hdg]
      have h2x := countRole_modifyRole (dims.map clearGridEntry) i
        Role.view_grid Role.view_x hclen
      have h2y := countRole_modifyRole (dims.map clearGridEntry) i
        Role.view_grid Role.view_y hclen
      have h2g := countRole_modifyRole (dims.map clearGridEntry) i
        Role.view_grid Role.view_grid hclen
      rw [hcgetD, if_neg hnx,
        if_neg (by decide : Role.view_grid ≠ Role.view_x)] at h2x
      rw [hcgetD, if_neg hny,
        if_neg (by decide : Role.view_grid ≠ Role.view_y)] at h2y
      rw [hcgetD, if_neg hng, if_pos rfl] at h2g
      refine ⟨⟨?_, ?_, ?_, ?_⟩, ?_⟩
      · rw [reassign_scroll_and_fixed,
          countRole_rsf_aux_view false Role.view_x rfl]
        omega
      · rw [reassign_scroll_and_fixed,
          countRole_rsf_aux_view false Role.view_y rfl]
        omega
      · rw [reassign_scroll_and_fixed,
          countRole_rsf_aux_view false Role.view_grid rfl]
        omega
      · exact countRole_rsf_aux_false_scroll _
      · refine idxSize_transfer _ _ (idxSize_rsf_aux false _) ?_
        refine idxSize_transfer _ _
          (idxSize_modifyRole (dims.map clearGridEntry) i Role.view_grid) ?_
        exact idxSize_transfer dims _ (idxSize_clearGrid dims) hidx

theorem inv_change_scroll_dimension_by_cycle (dims : Dims) (dir : Direction)
    (h : EngineInv dims) :
    EngineInv (change_scroll_dimension_by_cycle dims dir) := by
  unfold change_scroll_dimension_by_cycle
  dsimp only
  split_ifs with hlen
  · exact h
  · exact inv_set_scroll_dimension dims _ h


/-! ### Further helper lemmas for the claim theorems -/

theorem lt_length_of_roleAt_ne_fixed (l : Dims) (j : Nat) (r : Role)
    (hr : roleAt l j = r) (hne : r ≠ Role.fixed) : j < l.length := by
  by_contra hge
  rw [roleAt, List.getD_eq_default l default (by omega)] at hr
  exact hne hr.symm

theorem firstIdx_of_count_one (r : Role) :
    ∀ (l : Dims) (j : Nat), countRole l r = 1 → j < l.length →
      (l.getD j default).role = r →
      firstIdx (fun d => d.role == r) l = some j := by
  intro l
  induction l with
  | nil => intro j _ hj; simp at hj
  | cons d rest ih =>
      intro j hcount hj hr
      by_cases hd : d.role = r
      · have hrest : countRole rest r = 0 := by
          rw [countRole_cons, if_pos hd] at hcount
          omega
        cases j with
        | zero => simp [firstIdx, hd]
        | succ j' =>
            have hj' : j' < rest.length := by simpa using hj
            have : 1 ≤ countRole rest r :=
              countRole_pos_of_getD rest j' r hj' (by simpa [List.getD] using hr)
            omega
      · have hrest : countRole rest r = 1 := by
          rw [countRole_cons, if_neg hd] at hcount
          omega
        cases j with
        | zero =>
            rw [List.getD_cons_zero] at hr
            exact absurd hr hd
        | succ j' =>
            have hj' : j' < rest.length := by simpa using hj
            have := ih j' hrest hj' (by simpa [List.getD] using hr)
            simp [firstIdx, hd, this]

theorem initialRole_ne_scroll (k ndim : Nat) (h : ¬2 < ndim) :
    initialRole k ndim ≠ Role.scroll := by
  unfold initialRole
  split_ifs <;> simp_all

theorem countRole_air_aux_scroll (ndim : Nat) (h : ¬2 < ndim) :
    ∀ (shape : List Nat) (k : Nat),
      countRole (assign_initial_roles_aux ndim k shape) Role.scroll = 0 := by
  intro shape
  induction shape with
  | nil => intro k; rfl
  | cons n rest ih =>
      intro k
      rw [assign_initial_roles_aux, countRole_cons, ih (k + 1),
        if_neg (initialRole_ne_scroll k ndim h)]

theorem set_view_axes_valid (dims : Dims) (x y : Nat) (hx : x < dims.length)
    (hy : y < dims.length) (hxy : x ≠ y) :
    set_view_axes dims x y = (reassign_all_roles dims x y, none) := by
  unfold set_view_axes
  rw [if_neg (not_not_intro ⟨hx, hy⟩), if_neg hxy]

/-! ### Claim theorems -/

/-- C3: the auto-scroll re-partition scans the dimensions in ascending index
order: the first non-view dimension becomes scroll (a no-op when it already
held that role), every later non-view dimension is forced to fixed, and
view-role dimensions (view_x, view_y, view_grid) are left untouched; in the
concrete 4D scenario, shape (8, 8, 5, 3) starts as
[view_x, view_y, scroll, fixed] with indices [4, 4, 2, 1], and
toggle_grid(3) yields [view_x, view_y, scroll, view_grid] with dimension 2
remaining scroll. -/
theorem C3_auto_scroll_repartition (dims : Dims) (k : Nat)
    (hk : firstIdx (fun d => !d.role.isView) dims = some k) :
    ((reassign_scroll_and_fixed dims).getD k default).role = Role.scroll
    ∧ (∀ j, (dims.getD j default).role.isView = true →
        (reassign_scroll_and_fixed dims).getD j default = dims.getD j default)
    ∧ (∀ j, k < j → j < dims.length →
        (dims.getD j default).role.isView = false →
        ((reassign_scroll_and_fixed dims).getD j default).role = Role.fixed)
    ∧ toggle_grid_dimension (assign_initial_roles [8, 8, 5, 3]) 3 =
        [⟨Role.view_x, 4, 8⟩, ⟨Role.view_y, 4, 8⟩, ⟨Role.scroll, 2, 5⟩,
          ⟨Role.view_grid, 1, 3⟩] := by
  refine ⟨getD_rsf_false_first_scroll dims k hk, ?_, ?_, by decide⟩
  · intro j hj
    exact getD_rsf_aux_view false dims j hj
  · intro j hkj hj hrole
    exact getD_rsf_false_after_first dims k j hk hkj hj hrole

theorem C3_auto_scroll_repartition_witness :
    ((reassign_scroll_and_fixed (assign_initial_roles [8, 8, 5, 3])).getD 2
      default).role = Role.scroll :=
  (C3_auto_scroll_repartition (assign_initial_roles [8, 8, 5, 3]) 2 (by decide)).1

/-- C4: starting from any state satisfying the engine invariants (exactly
one view_x, exactly one view_y — necessarily on distinct dimensions since a
dimension holds one role — at most one view_grid, at most one scroll, and
index < size everywhere), each role-reassignment operation applied with
valid arguments — set_view_axes with two distinct in-range indices,
toggle_grid, set_scroll_dimension and cycle_scroll_dimension with any
index/direction — produces a state satisfying the same invariants. -/
theorem C4_role_ops_preserve_invariants (dims : Dims) (h : EngineInv dims) :
    (∀ x y, x < dims.length → y < dims.length → x ≠ y →
      EngineInv (set_view_axes dims x y).1)
    ∧ (∀ i, EngineInv (toggle_grid_dimension dims i))
    ∧ (∀ i, EngineInv (set_scroll_dimension dims i))
    ∧ (∀ dir, EngineInv (change_scroll_dimension_by_cycle dims dir)) := by
  refine ⟨?_, ?_, ?_, ?_⟩
  · intro x y hx hy hxy
    rw [set_view_axes_valid dims x y hx hy hxy]
    exact inv_reassign_all_roles dims x y hx hy hxy h
  · intro i
    exact inv_toggle_grid_dimension dims i h
  · intro i
    exact inv_set_scroll_dimension dims i h
  · intro dir
    exact inv_change_scroll_dimension_by_cycle dims dir h

theorem C4_role_ops_preserve_invariants_witness :
    EngineInv (toggle_grid_dimension (assign_initial_roles [8, 8, 5, 3]) 3) :=
  (C4_role_ops_preserve_invariants (assign_initial_roles [8, 8, 5, 3])
    (by decide)).2.1 3

/-- C6: initial role assignment is deterministic — for any shape with
ndim ≥ 2, dimension 0 becomes view_x, dimension 1 view_y, dimension 2
scroll exactly when ndim > 2 (and no dimension at all is scroll when
ndim = 2), every dimension from index 3 on is fixed, and every dimension
starts at index = size // 2 with its size recorded; for ndim < 2 the
constructor rejects the data (InvalidShapeError). -/
theorem C6_initial_roles (shape : List Nat) :
    (shape.length < 2 →
      newEngine shape = Except.error EngineError.InvalidShapeError)
    ∧ (2 ≤ shape.length →
        newEngine shape = Except.ok (assign_initial_roles shape)
        ∧ roleAt (assign_initial_roles shape) 0 = Role.view_x
        ∧ roleAt (assign_initial_roles shape) 1 = Role.view_y
        ∧ (2 < shape.length →
            roleAt (assign_initial_roles shape) 2 = Role.scroll)
        ∧ (shape.length = 2 →
            countRole (assign_initial_roles shape) Role.scroll = 0)
        ∧ (∀ i, 3 ≤ i → i < shape.length →
            roleAt (assign_initial_roles shape) i = Role.fixed))
    ∧ (∀ i, i < shape.length →
        ((assign_initial_roles shape).getD i default).index =
          shape.getD i 0 / 2
        ∧ ((assign_initial_roles shape).getD i default).size =
          shape.getD i 0) := by
  refine ⟨?_, ?_, ?_⟩
  · intro hlt
    unfold newEngine
    rw [if_pos hlt]
  · intro hge
    refine ⟨?_, ?_, ?_, ?_, ?_, ?_⟩
    · unfold newEngine
      rw [if_neg (by omega)]
    · rw [roleAt, assign_initial_roles,
        getD_assign_initial_roles_aux shape.length shape 0 0 (by omega)]
      simp [initialRole]
    · rw [roleAt, assign_initial_roles,
        getD_assign_initial_roles_aux shape.length shape 0 1 (by omega)]
      simp [initialRole]
    · intro hgt
      rw [roleAt, assign_initial_roles,
        getD_assign_initial_roles_aux shape.length shape 0 2 (by omega)]
      simp [initialRole, hgt]
    · intro heq
      exact countRole_air_aux_scroll shape.length (by omega) shape 0
    · intro i h3 hi
      rw [roleAt, assign_initial_roles,
        getD_assign_initial_roles_aux shape.length shape 0 i hi]
      simp only [Nat.zero_add]
      unfold initialRole
      rw [if_neg (by omega), if_neg (by omega), if_neg (by omega)]
  · intro i hi
    rw [assign_initial_roles,
      getD_assign_initial_roles_aux shape.length shape 0 i hi]
    exact ⟨rfl, rfl⟩

theorem C6_initial_roles_witness :
    newEngine [4, 5, 6] = Except.ok (assign_initial_roles [4, 5, 6])
    ∧ roleAt (assign_initial_roles [4, 5, 6]) 0 = Role.view_x
    ∧ roleAt (assign_initial_roles [4, 5, 6]) 1 = Role.view_y
    ∧ (2 < ([4, 5, 6] : List Nat).length →
        roleAt (assign_initial_roles [4, 5, 6]) 2 = Role.scroll)
    ∧ (([4, 5, 6] : List Nat).length = 2 →
        countRole (assign_initial_roles [4, 5, 6]) Role.scroll = 0)
    ∧ (∀ i, 3 ≤ i → i < ([4, 5, 6] : List Nat).length →
        roleAt (assign_initial_roles [4, 5, 6]) i = Role.fixed) :=
  (C6_initial_roles [4, 5, 6]).2.1 (by decide)

/-- C9 counterexample: a set_view_axes request with x_idx = y_idx = 5 on a
2-dimensional engine is rejected with IndexOutOfRangeError, not
DuplicateRoleError, because the range check runs before the distinctness
check; so not every x_idx = y_idx call yields DuplicateRoleError. -/
theorem C9_dup_out_of_range_counterexample :
    set_view_axes (assign_initial_roles [2, 3]) 5 5 =
      (assign_initial_roles [2, 3], some EngineError.IndexOutOfRangeError)
    ∧ some EngineError.IndexOutOfRangeError ≠
        some EngineError.DuplicateRoleError := by
  refine ⟨by decide, by decide⟩

/-- C9 (amended): a set_view_axes call with x_idx = y_idx always leaves the
role state unchanged; it is rejected with DuplicateRoleError when the index
is in range, and with IndexOutOfRangeError (the range check fires first)
when it is not. -/
theorem C9_duplicate_view_axes_rejected (dims : Dims) (x y : Nat)
    (hxy : x = y) :
    (set_view_axes dims x y).1 = dims
    ∧ (x < dims.length →
        set_view_axes dims x y = (dims, some EngineError.DuplicateRoleError))
    ∧ (¬x < dims.length →
        set_view_axes dims x y =
          (dims, some EngineError.IndexOutOfRangeError)) := by
  subst hxy
  unfold set_view_axes
  by_cases hx : x < dims.length
  · rw [if_neg (not_not_intro ⟨hx, hx⟩), if_pos rfl]
    exact ⟨rfl, fun _ => rfl, fun hc => absurd hx hc⟩
  · rw [if_pos (fun hc => hx hc.1)]
    exact ⟨rfl, fun hc => absurd hc hx, fun _ => rfl⟩

theorem C9_duplicate_view_axes_rejected_witness :
    set_view_axes (assign_initial_roles [2, 3]) 1 1 =
      (assign_initial_roles [2, 3], some EngineError.DuplicateRoleError) :=
  (C9_duplicate_view_axes_rejected (assign_initial_roles [2, 3]) 1 1
    rfl).2.1 (by decide)

/-- C10: every valid set_view_axes call (distinct in-range indices) leaves
no dimension with role view_grid — all non-selected dimensions are demoted
to scroll/fixed, clearing an existing view_grid even when neither selected
index was the grid dimension. -/
theorem C10_set_view_axes_clears_grid (dims : Dims) (x y : Nat)
    (hx : x < dims.length) (hy : y < dims.length) (hxy : x ≠ y) :
    countRole (set_view_axes dims x y).1 Role.view_grid = 0
    ∧ ∀ d ∈ (set_view_axes dims x y).1, d.role ≠ Role.view_grid := by
  rw [set_view_axes_valid dims x y hx hy hxy]
  refine ⟨countRole_reassign_all_roles_grid dims x y, ?_⟩
  intro d hd hcon
  have h0 := countRole_reassign_all_roles_grid dims x y
  rw [countRole] at h0
  have := List.countP_eq_zero.mp h0 d hd
  simp [hcon] at this

theorem C10_set_view_axes_clears_grid_witness :
    countRole (set_view_axes
      [⟨Role.view_x, 4, 8⟩, ⟨Role.view_y, 4, 8⟩, ⟨Role.scroll, 2, 5⟩,
        ⟨Role.view_grid, 1, 3⟩] 0 1).1 Role.view_grid = 0 :=
  (C10_set_view_axes_clears_grid
    [⟨Role.view_x, 4, 8⟩, ⟨Role.view_y, 4, 8⟩, ⟨Role.scroll, 2, 5⟩,
      ⟨Role.view_grid, 1, 3⟩] 0 1 (by decide) (by decide) (by decide)).1

/-- C7 counterexample: starting from the initial state of shape [2, 3]
(view_x on dimension 0, view_y on dimension 1), calling set_view_axes(0, 1)
and then set_view_axes(1, 0) puts view_y — not view_x — on dimension 0: the
round trip swaps the X/Y assignment instead of restoring it. -/
theorem C7_round_trip_counterexample :
    roleAt (assign_initial_roles [2, 3]) 0 = Role.view_x
    ∧ roleAt (set_view_axes
        (set_view_axes (assign_initial_roles [2, 3]) 0 1).1 1 0).1 0 =
        Role.view_y
    ∧ Role.view_y ≠ Role.view_x := by
  refine ⟨by decide, by decide, by decide⟩

/-- C7 (amended): from a state satisfying the invariants with view_x on
dimension a and view_y on dimension b, calling set_view_axes(a, b) and then
set_view_axes(b, a) yields the swapped assignment — view_x on b and view_y
on a — rather than restoring the original; and when the caller requests the
current pair in reverse (clicking the [X] button of the current Y
dimension), the engine performs the swap directly as the single
reassignment reassign_all_roles(current_y, current_x), with no intermediate
state. -/
theorem C7_round_trip_swaps (dims : Dims) (a b : Nat)
    (hinv : EngineInv dims) (ha : roleAt dims a = Role.view_x)
    (hb : roleAt dims b = Role.view_y) :
    roleAt (set_view_axes (set_view_axes dims a b).1 b a).1 b = Role.view_x
    ∧ roleAt (set_view_axes (set_view_axes dims a b).1 b a).1 a = Role.view_y
    ∧ set_view_dimension_from_button dims b 0 = reassign_all_roles dims b a := by
  have halen : a < dims.length :=
    lt_length_of_roleAt_ne_fixed dims a Role.view_x ha (by decide)
  have hblen : b < dims.length :=
    lt_length_of_roleAt_ne_fixed dims b Role.view_y hb (by decide)
  have hab : a ≠ b := by
    intro hcon
    rw [hcon, hb] at ha
    exact absurd ha (by decide)
  have h1 := set_view_axes_valid dims a b halen hblen hab
  have hlen1 : (reassign_all_roles dims a b).length = dims.length :=
    length_reassign_all_roles dims a b
  have h2 := set_view_axes_valid (reassign_all_roles dims a b) b a
    (by omega) (by omega) (Ne.symm hab)
  refine ⟨?_, ?_, ?_⟩
  · rw [h1]
    show roleAt (set_view_axes (reassign_all_roles dims a b) b a).1 b =
      Role.view_x
    rw [h2]
    exact roleAt_reassign_all_roles_x (reassign_all_roles dims a b) b a
      (by omega)
  · rw [h1]
    show roleAt (set_view_axes (reassign_all_roles dims a b) b a).1 a =
      Role.view_y
    rw [h2]
    exact roleAt_reassign_all_roles_y (reassign_all_roles dims a b) b a
      (by omega) (Ne.symm hab)
  · have hcx : firstIdx (fun d => d.role == Role.view_x) dims = some a :=
      firstIdx_of_count_one Role.view_x dims a hinv.1.1 halen ha
    have hcy : firstIdx (fun d => d.role == Role.view_y) dims = some b :=
      firstIdx_of_count_one Role.view_y dims b hinv.1.2.1 hblen hb
    unfold set_view_dimension_from_button
    rw [hcx, hcy]
    simp

theorem C7_round_trip_swaps_witness :
    roleAt (set_view_axes
      (set_view_axes (assign_initial_roles [2, 3]) 0 1).1 1 0).1 1 =
      Role.view_x :=
  (C7_round_trip_swaps (assign_initial_roles [2, 3]) 0 1 (by decide)
    (by decide) (by decide)).1

/-- C8: the frequency-domain transform equals the elementwise log-magnitude
log(1 + |fftshift(fftn(array, axes))|) of the zero-frequency-centred
N-dimensional DFT, its output shape equals the input shape, and every
output value is nonnegative (log(1+t) ≥ 0 for t ≥ 0). -/
theorem C8_fft_log_magnitude (a : NDArr ℂ) (axes : List Nat)
    (_hne : axes ≠ []) (_hax : ∀ ax ∈ axes, ax < a.shape.length) :
    (∀ p, (compute_fft a axes).data p =
      Real.log (1 + Complex.abs ((fftshiftn (fftn a axes) axes).data p)))
    ∧ (compute_fft a axes).shape = a.shape
    ∧ ∀ p, 0 ≤ (compute_fft a axes).data p := by
  refine ⟨fun p => rfl, shape_compute_fft a axes, fun p => ?_⟩
  apply Real.log_nonneg
  have h0 :=
    AbsoluteValue.nonneg Complex.abs ((fftshiftn (fftn a axes) axes).data p)
  linarith

theorem C8_fft_log_magnitude_witness :
    (compute_fft ⟨[2, 2], fun _ => 0⟩ [0, 1]).shape =
      (⟨[2, 2], fun _ => 0⟩ : NDArr ℂ).shape :=
  (C8_fft_log_magnitude ⟨[2, 2], fun _ => 0⟩ [0, 1] (by decide)
    (by decide)).2.1

/-! ### Shape of the plain slice (claims C1 and C2) -/

theorem get_single_slice_eq (a : NDArr α) (dims : Dims)
    (ovr : Option (List SliceItem)) :
    get_single_slice a dims ovr =
      if (firstIdx (fun d => d.role == Role.view_y) dims).getD 0 <
          (firstIdx (fun d => d.role == Role.view_x) dims).getD 0 then
        transposeT (applySlice a (ovr.getD (buildSlicer dims)))
      else applySlice a (ovr.getD (buildSlicer dims)) := rfl

theorem get_display_image_of_no_grid [Inhabited α] (a : NDArr α) (dims : Dims)
    (hg : countRole dims Role.view_grid = 0) :
    get_display_image a dims = get_single_slice a dims none := by
  have hnone : firstIdx (fun d => d.role == Role.view_grid) dims = none :=
    (firstIdx_eq_none _ dims).mpr hg
  unfold get_display_image
  rw [hnone]

theorem sliceShape_buildSlicer :
    ∀ dims : Dims,
      sliceShape (dims.map (fun d => d.size)) (buildSlicer dims) =
        (dims.filter (fun d => d.role.isView)).map (fun d => d.size) := by
  intro dims
  induction dims with
  | nil => rfl
  | cons d rest ih =>
      by_cases hd : d.role.isView
      · simp [buildSlicer, sliceShape, hd, List.filter_cons] at ih ⊢
        exact ih
      · simp [buildSlicer, sliceShape, hd, List.filter_cons] at ih ⊢
        exact ih

theorem isView_false_of_ne {r : Role} (hx : r ≠ Role.view_x)
    (hy : r ≠ Role.view_y) (hg : r ≠ Role.view_grid) : r.isView = false := by
  cases r <;> simp_all [Role.isView]

theorem filter_isView_eq_nil (dims : Dims)
    (hx : countRole dims Role.view_x = 0)
    (hy : countRole dims Role.view_y = 0)
    (hg : countRole dims Role.view_grid = 0) :
    dims.filter (fun d => d.role.isView) = [] := by
  unfold countRole at hx hy hg
  rw [List.filter_eq_nil_iff]
  intro d hd
  have hx' := List.countP_eq_zero.mp hx d hd
  have hy' := List.countP_eq_zero.mp hy d hd
  have hg' := List.countP_eq_zero.mp hg d hd
  simp only [beq_iff_eq] at hx' hy' hg'
  simp [isView_false_of_ne hx' hy' hg']

theorem filter_isView_single_y :
    ∀ dims : Dims, countRole dims Role.view_x = 0 →
      countRole dims Role.view_y = 1 → countRole dims Role.view_grid = 0 →
      ∃ py, firstIdx (fun d => d.role == Role.view_y) dims = some py
        ∧ (dims.filter (fun d => d.role.isView)).map (fun d => d.size) =
            [(dims.getD py default).size]
        ∧ firstIdx (fun d => d.role == Role.view_x) dims = none := by
  intro dims
  induction dims with
  | nil => intro _ hy _; simp [countRole_nil] at hy
  | cons d rest ih =>
      intro hx hy hg
      rw [countRole_cons] at hx hy hg
      by_cases hdy : d.role = Role.view_y
      · rw [if_pos hdy] at hy
        have hdx : d.role ≠ Role.view_x := by rw [hdy]; decide
        have hdg : d.role ≠ Role.view_grid := by rw [hdy]; decide
        rw [if_neg hdx] at hx
        rw [if_neg hdg] at hg
        have hrestnil := filter_isView_eq_nil rest hx (by omega) hg
        refine ⟨0, ?_, ?_, ?_⟩
        · simp [firstIdx, hdy]
        · have hdview : d.role.isView = true := by rw [hdy]; rfl
          simp [List.filter_cons, hdview, hrestnil, List.getD]
        · have := (firstIdx_eq_none (fun d => d.role == Role.view_x) rest).mpr hx
          simp [firstIdx, hdx, this]
      · have hdx : d.role ≠ Role.view_x := by
          intro hcon
          rw [if_pos hcon] at hx
          omega
        have hdg : d.role ≠ Role.view_grid := by
          intro hcon
          rw [if_pos hcon] at hg
          omega
        rw [if_neg hdx] at hx
        rw [if_neg hdy] at hy
        rw [if_neg hdg] at hg
        obtain ⟨py, hpy, hfil, hnone⟩ := ih (by omega) (by omega) (by omega)
        have hdview : d.role.isView = false := isView_false_of_ne hdx hdy hdg
        refine ⟨py + 1, ?_, ?_, ?_⟩
        · simp [firstIdx, hdy, hpy]
        · simp [List.filter_cons, hdview, hfil, List.getD]
        · simp [firstIdx, hdx, hnone]

theorem filter_isView_single_x :
    ∀ dims : Dims, countRole dims Role.view_x = 1 →
      countRole dims Role.view_y = 0 → countRole dims Role.view_grid = 0 →
      ∃ px, firstIdx (fun d => d.role == Role.view_x) dims = some px
        ∧ (dims.filter (fun d => d.role.isView)).map (fun d => d.size) =
            [(dims.getD px default).size]
        ∧ firstIdx (fun d => d.role == Role.view_y) dims = none := by
  intro dims
  induction dims with
  | nil => intro hx _ _; simp [countRole_nil] at hx
  | cons d rest ih =>
      intro hx hy hg
      rw [countRole_cons] at hx hy hg
      by_cases hdx : d.role = Role.view_x
      · rw [if_pos hdx] at hx
        have hdy : d.role ≠ Role.view_y := by rw [hdx]; decide
        have hdg : d.role ≠ Role.view_grid := by rw [hdx]; decide
        rw [if_neg hdy] at hy
        rw [if_neg hdg] at hg
        have hrestnil := filter_isView_eq_nil rest (by omega) hy hg
        refine ⟨0, ?_, ?_, ?_⟩
        · simp [firstIdx, hdx]
        · have hdview : d.role.isView = true := by rw [hdx]; rfl
          simp [List.filter_cons, hdview, hrestnil, List.getD]
        · have := (firstIdx_eq_none (fun d => d.role == Role.view_y) rest).mpr hy
          simp [firstIdx, hdy, this]
      · have hdy : d.role ≠ Role.view_y := by
          intro hcon
          rw [if_pos hcon] at hy
          omega
        have hdg : d.role ≠ Role.view_grid := by
          intro hcon
          rw [if_pos hcon] at hg
          omega
        rw [if_neg hdx] at hx
        rw [if_neg hdy] at hy
        rw [if_neg hdg] at hg
        obtain ⟨px, hpx, hfil, hnone⟩ := ih (by omega) (by omega) (by omega)
        have hdview : d.role.isView = false := isView_false_of_ne hdx hdy hdg
        refine ⟨px + 1, ?_, ?_, ?_⟩
        · simp [firstIdx, hdx, hpx]
        · simp [List.filter_cons, hdview, hfil, List.getD]
        · simp [firstIdx, hdy, hnone]

theorem filter_isView_two (dims : Dims)
    (hx : countRole dims Role.view_x = 1)
    (hy : countRole dims Role.view_y = 1)
    (hg : countRole dims Role.view_grid = 0) :
    ∃ px py,
      firstIdx (fun d => d.role == Role.view_x) dims = some px
      ∧ firstIdx (fun d => d.role == Role.view_y) dims = some py
      ∧ px ≠ py
      ∧ ((px < py
          ∧ (dims.filter (fun d => d.role.isView)).map (fun d => d.size) =
              [(dims.getD px default).size, (dims.getD py default).size])
        ∨ (py < px
          ∧ (dims.filter (fun d => d.role.isView)).map (fun d => d.size) =
              [(dims.getD py default).size, (dims.getD px default).size])) := by
  induction dims with
  | nil => simp [countRole_nil] at hx
  | cons d rest ih =>
      rw [countRole_cons] at hx hy hg
      by_cases hdx : d.role = Role.view_x
      · rw [if_pos hdx] at hx
        have hdy : d.role ≠ Role.view_y := by rw [hdx]; decide
        have hdg : d.role ≠ Role.view_grid := by rw [hdx]; decide
        rw [if_neg hdy] at hy
        rw [if_neg hdg] at hg
        obtain ⟨py, hpy, hfil, hxnone⟩ :=
          filter_isView_single_y rest (by omega) (by omega) (by omega)
        refine ⟨0, py + 1, ?_, ?_, by omega, Or.inl ⟨by omega, ?_⟩⟩
        · simp [firstIdx, hdx]
        · simp [firstIdx, hdy, hpy]
        · have hdview : d.role.isView = true := by rw [hdx]; rfl
          simp [List.filter_cons, hdview, hfil, List.getD]
      · by_cases hdy : d.role = Role.view_y
        · rw [if_pos hdy] at hy
          have hdg : d.role ≠ Role.view_grid := by rw [hdy]; decide
          rw [if_neg hdx] at hx
          rw [if_neg hdg] at hg
          obtain ⟨px, hpx, hfil, hynone⟩ :=
            filter_isView_single_x rest (by omega) (by omega) (by omega)
          refine ⟨px + 1, 0, ?_, ?_, by omega, Or.inr ⟨by omega, ?_⟩⟩
          · simp [firstIdx, hdx, hpx]
          · simp [firstIdx, hdy]
          · have hdview : d.role.isView = true := by rw [hdy]; rfl
            simp [List.filter_cons, hdview, hfil, List.getD]
        · have hdg : d.role ≠ Role.view_grid := by
            intro hcon
            rw [if_pos hcon] at hg
            omega
          rw [if_neg hdx] at hx
          rw [if_neg hdy] at hy
          rw [if_neg hdg] at hg
          obtain ⟨px, py, hpx, hpy, hne, hdisj⟩ := ih hx hy hg
          have hdview : d.role.isView = false := isView_false_of_ne hdx hdy hdg
          refine ⟨px + 1, py + 1, ?_, ?_, by omega, ?_⟩
          · simp [firstIdx, hdx, hpx]
          · simp [firstIdx, hdy, hpy]
          · rcases hdisj with ⟨hlt, hfil⟩ | ⟨hlt, hfil⟩
            · exact Or.inl ⟨by omega, by
                simp [List.filter_cons, hdview, hfil, List.getD]⟩
            · exact Or.inr ⟨by omega, by
                simp [List.filter_cons, hdview, hfil, List.getD]⟩

/-- C1 counterexample: on the 2-D array of shape (2, 3) with the initial
roles (view_x on dimension 0 of size 2, view_y on dimension 1 of size 3),
render returns an array of shape (2, 3) = (size(view_x), size(view_y)),
not (3, 2) = (size(view_y), size(view_x)) as the claim states. -/
theorem C1_claimed_shape_counterexample :
    (assign_initial_roles [2, 3]).getD 0 default = ⟨Role.view_x, 1, 2⟩
    ∧ (assign_initial_roles [2, 3]).getD 1 default = ⟨Role.view_y, 1, 3⟩
    ∧ (get_display_image (⟨[2, 3], fun _ => (0 : Int)⟩ : NDArr Int)
        (assign_initial_roles [2, 3])).shape = [2, 3]
    ∧ ([2, 3] : List Nat) ≠ [3, 2] := by
  exact ⟨by decide, by decide, by decide, by decide⟩

/-- C1 (amended): for every role configuration satisfying the invariants in
the plain-slice path (exactly one view_x, exactly one view_y, no view_grid)
with the array shape matching the dimension sizes, the 2D array returned by
render has shape (size of the view_x dimension, size of the view_y
dimension): the number of rows equals the view_x dimension's size and the
number of columns equals the view_y dimension's size. -/
theorem C1_plain_slice_shape {α : Type} [Inhabited α] (a : NDArr α)
    (dims : Dims) (hshape : a.shape = dims.map (fun d => d.size))
    (hx : countRole dims Role.view_x = 1)
    (hy : countRole dims Role.view_y = 1)
    (hg : countRole dims Role.view_grid = 0) :
    (get_display_image a dims).shape =
      [(dims.getD ((firstIdx (fun d => d.role == Role.view_x) dims).getD 0)
          default).size,
        (dims.getD ((firstIdx (fun d => d.role == Role.view_y) dims).getD 0)
          default).size] := by
  obtain ⟨px, py, hpx, hpy, hne, hdisj⟩ := filter_isView_two dims hx hy hg
  rw [get_display_image_of_no_grid a dims hg, get_single_slice_eq, hpx, hpy]
  simp only [Option.getD_some, Option.getD_none]
  rcases hdisj with ⟨hlt, hfil⟩ | ⟨hlt, hfil⟩
  · rw [if_neg (by omega)]
    show sliceShape a.shape (buildSlicer dims) = _
    rw [hshape, sliceShape_buildSlicer, hfil]
  · rw [if_pos hlt]
    show (sliceShape a.shape (buildSlicer dims)).reverse = _
    rw [hshape, sliceShape_buildSlicer, hfil]
    rfl

theorem C1_plain_slice_shape_witness :
    (get_display_image (⟨[2, 3], fun _ => (0 : Int)⟩ : NDArr Int)
      (assign_initial_roles [2, 3])).shape =
      [((assign_initial_roles [2, 3]).getD
          ((firstIdx (fun d => d.role == Role.view_x)
            (assign_initial_roles [2, 3])).getD 0) default).size,
        ((assign_initial_roles [2, 3]).getD
          ((firstIdx (fun d => d.role == Role.view_y)
            (assign_initial_roles [2, 3])).getD 0) default).size] :=
  C1_plain_slice_shape (⟨[2, 3], fun _ => (0 : Int)⟩ : NDArr Int)
    (assign_initial_roles [2, 3]) (by decide) (by decide) (by decide)
    (by decide)

/-- C2: in the plain-slice path (no view_grid dimension), render transposes
the extracted 2D sub-array exactly when the view_y dimension's original
tensor axis position is numerically less than the view_x dimension's
position — the decision uses original axis positions, not roles — and
returns the sub-array untransposed otherwise. -/
theorem C2_transpose_iff_y_before_x {α : Type} [Inhabited α] (a : NDArr α)
    (dims : Dims) (xpos ypos : Nat)
    (hx : countRole dims Role.view_x = 1)
    (hy : countRole dims Role.view_y = 1)
    (hg : countRole dims Role.view_grid = 0)
    (hxp : roleAt dims xpos = Role.view_x)
    (hyp : roleAt dims ypos = Role.view_y) :
    (ypos < xpos →
      get_display_image a dims = transposeT (applySlice a (buildSlicer dims)))
    ∧ (xpos < ypos →
      get_display_image a dims = applySlice a (buildSlicer dims)) := by
  have hxlen : xpos < dims.length :=
    lt_length_of_roleAt_ne_fixed dims xpos Role.view_x hxp (by decide)
  have hylen : ypos < dims.length :=
    lt_length_of_roleAt_ne_fixed dims ypos Role.view_y hyp (by decide)
  have hfx : firstIdx (fun d => d.role == Role.view_x) dims = some xpos :=
    firstIdx_of_count_one Role.view_x dims xpos hx hxlen hxp
  have hfy : firstIdx (fun d => d.role == Role.view_y) dims = some ypos :=
    firstIdx_of_count_one Role.view_y dims ypos hy hylen hyp
  rw [get_display_image_of_no_grid a dims hg, get_single_slice_eq, hfx, hfy]
  simp only [Option.getD_some, Option.getD_none]
  constructor
  · intro hlt
    rw [if_pos hlt]
  · intro hlt
    rw [if_neg (by omega)]

theorem C2_transpose_iff_y_before_x_witness :
    get_display_image (⟨[2, 3], fun _ => (0 : Int)⟩ : NDArr Int)
        [⟨Role.view_y, 1, 2⟩, ⟨Role.view_x, 1, 3⟩] =
      transposeT (applySlice (⟨[2, 3], fun _ => (0 : Int)⟩ : NDArr Int)
        (buildSlicer [⟨Role.view_y, 1, 2⟩, ⟨Role.view_x, 1, 3⟩])) :=
  (C2_transpose_iff_y_before_x (⟨[2, 3], fun _ => (0 : Int)⟩ : NDArr Int)
    [⟨Role.view_y, 1, 2⟩, ⟨Role.view_x, 1, 3⟩] 1 0 (by decide) (by decide)
    (by decide) (by decide) (by decide)).1 (by decide)

/-! ### Mosaic layout and tiling (claim C5) -/

theorem grid_rows_aux_pos (n : Nat) : ∀ k, 1 ≤ grid_rows_aux n k := by
  intro k
  induction k with
  | zero => exact le_refl 1
  | succ r ih =>
      rw [grid_rows_aux]
      split_ifs with h
      · omega
      · exact ih

theorem grid_rows_aux_dvd (n : Nat) : ∀ k, grid_rows_aux n k ∣ n := by
  intro k
  induction k with
  | zero => exact one_dvd n
  | succ r ih =>
      rw [grid_rows_aux]
      split_ifs with h
      · exact Nat.dvd_of_mod_eq_zero h
      · exact ih

theorem grid_rows_aux_le (n : Nat) : ∀ k, grid_rows_aux n k ≤ max k 1 := by
  intro k
  induction k with
  | zero => simp [grid_rows_aux]
  | succ r ih =>
      rw [grid_rows_aux]
      split_ifs with h
      · omega
      · have := le_max_right r 1
        omega

theorem grid_rows_aux_max (n : Nat) :
    ∀ k d, d ∣ n → d ≤ k → d ≤ grid_rows_aux n k := by
  intro k
  induction k with
  | zero =>
      intro d hdvd hd
      rw [grid_rows_aux]
      omega
  | succ r ih =>
      intro d hdvd hd
      rw [grid_rows_aux]
      split_ifs with h
      · exact hd
      · have hne : d ≠ r + 1 := by
          intro hcon
          rw [hcon] at hdvd
          exact h (Nat.mod_eq_zero_of_dvd hdvd)
        exact ih d hdvd (by omega)

theorem calculate_grid_layout_eq (n : Nat) (hn : n ≠ 0) :
    calculate_grid_layout n =
      (grid_rows_aux n (Nat.sqrt n), n / grid_rows_aux n (Nat.sqrt n)) := by
  unfold calculate_grid_layout
  rw [if_neg hn]

theorem sqrt_twelve : Nat.sqrt 12 = 3 :=
  le_antisymm (Nat.lt_succ_iff.mp (Nat.sqrt_lt.mpr (by norm_num)))
    (Nat.le_sqrt.mpr (by norm_num))

theorem sqrt_seven : Nat.sqrt 7 = 2 :=
  le_antisymm (Nat.lt_succ_iff.mp (Nat.sqrt_lt.mpr (by norm_num)))
    (Nat.le_sqrt.mpr (by norm_num))

theorem calculate_grid_layout_spec (n : Nat) (hn : 0 < n) :
    1 ≤ (calculate_grid_layout n).1
    ∧ (calculate_grid_layout n).1 ∣ n
    ∧ (calculate_grid_layout n).1 ≤ Nat.sqrt n
    ∧ (∀ d, d ∣ n → d ≤ Nat.sqrt n → d ≤ (calculate_grid_layout n).1)
    ∧ (calculate_grid_layout n).2 = n / (calculate_grid_layout n).1 := by
  rw [calculate_grid_layout_eq n (by omega)]
  have hsq : 1 ≤ Nat.sqrt n := Nat.sqrt_pos.mpr hn
  refine ⟨grid_rows_aux_pos n _, grid_rows_aux_dvd n _, ?_,
    fun d hdvd hd => grid_rows_aux_max n _ d hdvd hd, rfl⟩
  have := grid_rows_aux_le n (Nat.sqrt n)
  omega

theorem shape_writeTile (img src : NDArr α) (r c h w : Nat) :
    (writeTile img src r c h w).shape = img.shape := rfl

theorem shape_writeTiles (a : NDArr α) (dims : Dims) (g cols h w : Nat) :
    ∀ (k : Nat) (img : NDArr α),
      (writeTiles a dims g cols h w k img).shape = img.shape := by
  intro k
  induction k with
  | zero => intro img; rfl
  | succ j ih =>
      intro img
      show (writeTile (writeTiles a dims g cols h w j img)
        (get_single_slice a dims (some (gridSlicer dims g j)))
        (j / cols) (j % cols) h w).shape = img.shape
      rw [shape_writeTile, ih]

theorem writeTile_data_in (img src : NDArr α) (r c h w u v : Nat)
    (hu : u < h) (hv : v < w) :
    (writeTile img src r c h w).data [r * h + u, c * w + v] =
      src.data [u, v] := by
  show (if r * h ≤ r * h + u ∧ r * h + u < (r + 1) * h ∧
      c * w ≤ c * w + v ∧ c * w + v < (c + 1) * w then
      src.data [r * h + u - r * h, c * w + v - c * w]
    else img.data [r * h + u, c * w + v]) = src.data [u, v]
  rw [if_pos ⟨Nat.le_add_right _ _, by rw [Nat.succ_mul]; omega,
    Nat.le_add_right _ _, by rw [Nat.succ_mul]; omega⟩,
    Nat.add_sub_cancel_left, Nat.add_sub_cancel_left]

theorem writeTile_data_out (img src : NDArr α) (r c h w p0 p1 : Nat)
    (hout : ¬(r * h ≤ p0 ∧ p0 < (r + 1) * h ∧
      c * w ≤ p1 ∧ p1 < (c + 1) * w)) :
    (writeTile img src r c h w).data [p0, p1] = img.data [p0, p1] := by
  show (if r * h ≤ p0 ∧ p0 < (r + 1) * h ∧
      c * w ≤ p1 ∧ p1 < (c + 1) * w then
      src.data [p0 - r * h, p1 - c * w]
    else img.data [p0, p1]) = img.data [p0, p1]
  rw [if_neg hout]

theorem block_coord_eq (r u q h : Nat) (hu : u < h)
    (hq1 : q * h ≤ r * h + u) (hq2 : r * h + u < (q + 1) * h) : q = r := by
  have hr : (r * h + u) / h = r := by
    rw [Nat.mul_comm r h, Nat.mul_add_div (by omega), Nat.div_eq_of_lt hu]
    omega
  have hq : (r * h + u) / h = q := by
    refine Nat.div_eq_of_lt_le hq1 ?_
    rw [Nat.succ_mul]
    rw [Nat.succ_mul] at hq2
    omega
  omega

theorem writeTiles_data (a : NDArr α) (dims : Dims) (g cols h w : Nat) :
    ∀ (n : Nat) (img : NDArr α) (i u v : Nat), i < n → u < h → v < w →
      (writeTiles a dims g cols h w n img).data
          [(i / cols) * h + u, (i % cols) * w + v] =
        (get_single_slice a dims (some (gridSlicer dims g i))).data [u, v] := by
  intro n
  induction n with
  | zero => intro img i u v hi _ _; omega
  | succ k ih =>
      intro img i u v hi hu hv
      show (writeTile (writeTiles a dims g cols h w k img)
        (get_single_slice a dims (some (gridSlicer dims g k)))
        (k / cols) (k % cols) h w).data
          [(i / cols) * h + u, (i % cols) * w + v] = _
      by_cases hik : i = k
      · subst hik
        exact writeTile_data_in _ _ _ _ _ _ _ _ hu hv
      · have hik2 : i < k := by omega
        rw [writeTile_data_out]
        · exact ih img i u v hik2 hu hv
        · rintro ⟨h1, h2, h3, h4⟩
          have hr : k / cols = i / cols :=
            block_coord_eq (i / cols) u (k / cols) h hu h1 h2
          have hc : k % cols = i % cols :=
            block_coord_eq (i % cols) v (k % cols) w hv h3 h4
          have hi2 : cols * (i / cols) + i % cols = i := Nat.div_add_mod i cols
          have hk2 : cols * (k / cols) + k % cols = k := Nat.div_add_mod k cols
          rw [hr, hc] at hk2
          omega

theorem build_grid_image_eq {α : Type} [Inhabited α] (a : NDArr α)
    (dims : Dims) (g : Nat) :
    build_grid_image a dims g =
      writeTiles a dims g (calculate_grid_layout (dims.getD g default).size).2
        ((get_single_slice a dims (some (gridSlicer dims g 0))).shape.getD 0 0)
        ((get_single_slice a dims (some (gridSlicer dims g 0))).shape.getD 1 0)
        (dims.getD g default).size
        ⟨[(calculate_grid_layout (dims.getD g default).size).1 *
            (get_single_slice a dims (some (gridSlicer dims g 0))).shape.getD 0 0,
          (calculate_grid_layout (dims.getD g default).size).2 *
            (get_single_slice a dims (some (gridSlicer dims g 0))).shape.getD 1 0],
          fun _ => default⟩ := rfl

/-- C5: the mosaic layout picks rows as the largest divisor of the grid
size that is at most sqrt(size) — found by searching downward from
floor(sqrt(size)), worst case 1 — and cols = size / rows (so size = 12
gives rows = 3, cols = 4, and the prime size = 7 gives rows = 1, cols = 7);
the mosaic has shape (rows*h, cols*w) for the per-slice shape (h, w) taken
from tile 0, and tile i is placed row-major at mosaic position
(i / cols, i % cols), its pixel block occupying
[row*h:(row+1)*h, col*w:(col+1)*w]; the mosaic holds values of the active
array's element type (numpy dtype is the value type of the embedding). -/
theorem C5_mosaic_layout {α : Type} [Inhabited α] (a : NDArr α)
    (dims : Dims) (g : Nat) :
    (∀ n, 0 < n →
      1 ≤ (calculate_grid_layout n).1
      ∧ (calculate_grid_layout n).1 ∣ n
      ∧ (calculate_grid_layout n).1 ≤ Nat.sqrt n
      ∧ (∀ d, d ∣ n → d ≤ Nat.sqrt n → d ≤ (calculate_grid_layout n).1)
      ∧ (calculate_grid_layout n).2 = n / (calculate_grid_layout n).1)
    ∧ calculate_grid_layout 12 = (3, 4)
    ∧ calculate_grid_layout 7 = (1, 7)
    ∧ (build_grid_image a dims g).shape =
        [(calculate_grid_layout (dims.getD g default).size).1 *
            (get_single_slice a dims (some (gridSlicer dims g 0))).shape.getD 0 0,
          (calculate_grid_layout (dims.getD g default).size).2 *
            (get_single_slice a dims (some (gridSlicer dims g 0))).shape.getD 1 0]
    ∧ (∀ i u v, i < (dims.getD g default).size →
        u < (get_single_slice a dims (some (gridSlicer dims g 0))).shape.getD 0 0 →
        v < (get_single_slice a dims (some (gridSlicer dims g 0))).shape.getD 1 0 →
        (build_grid_image a dims g).data
            [(i / (calculate_grid_layout (dims.getD g default).size).2) *
                ((get_single_slice a dims
                  (some (gridSlicer dims g 0))).shape.getD 0 0) + u,
              (i % (calculate_grid_layout (dims.getD g default).size).2) *
                ((get_single_slice a dims
                  (some (gridSlicer dims g 0))).shape.getD 1 0) + v] =
          (get_single_slice a dims (some (gridSlicer dims g i))).data [u, v]) := by
  refine ⟨calculate_grid_layout_spec, ?_, ?_, ?_, ?_⟩
  · have h12 := calculate_grid_layout_eq 12 (by norm_num)
    rw [sqrt_twelve] at h12
    rw [h12]
    decide
  · have h7 := calculate_grid_layout_eq 7 (by norm_num)
    rw [sqrt_seven] at h7
    rw [h7]
    decide
  · rw [build_grid_image_eq, shape_writeTiles]
  · intro i u v hi hu hv
    rw [build_grid_image_eq]
    exact writeTiles_data a dims g _ _ _ _ _ i u v hi hu hv

theorem C5_mosaic_layout_witness :
    calculate_grid_layout 12 = (3, 4) ∧ calculate_grid_layout 7 = (1, 7) :=
  ⟨(C5_mosaic_layout (⟨[2, 3, 4], fun _ => (0 : Int)⟩ : NDArr Int)
      (assign_initial_roles [2, 3, 4]) 2).2.1,
    (C5_mosaic_layout (⟨[2, 3, 4], fun _ => (0 : Int)⟩ : NDArr Int)
      (assign_initial_roles [2, 3, 4]) 2).2.2.1⟩

end ArrayShow
